/-
Verification of the document patch engine of `invoice_generato.py`
(class `InvoiceDocGeneratorXML`).

Modelling conventions:
* Python `str` values are `List Char`.
* A `w:t` text node is an `Option (List Char)` (its `.text` may be `None`);
  a paragraph is the ordered list of its descendant text nodes.
* Machine integers do not overflow here (Python ints); identifier values are `Int`.
* Fallible code (positional indexing into a row's cell list) lives in `Except`.
-/
import Mathlib

namespace InvoiceGen

/-- Text of an XML text node as the code reads it: `t.text or ""`. -/
def nodeText (t : Option (List Char)) : List Char := t.getD []

/-- A paragraph: the ordered list of its `w:t` descendants' texts. -/
abbrev Para := List (Option (List Char))

/-- Aggregated paragraph text: `"".join(t.text or "" for t in runs)`. -/
def paraText (p : Para) : List Char := (p.map nodeText).flatten

/-- Split `s` at the first occurrence of `pat`: the text before the match and,
when a match exists, the remainder after it (leftmost match, as in Python).
An empty pattern never matches; every pattern used by the program is a
nonempty literal. -/
def breakOn (pat : List Char) : List Char → List Char × Option (List Char)
  | [] => ([], none)
  | c :: cs =>
      if pat ≠ [] ∧ pat.isPrefixOf (c :: cs) then
        ([], some ((c :: cs).drop pat.length))
      else
        let (a, r) := breakOn pat cs
        (c :: a, r)

/-- Fuel-driven worker for `splitOnL`; the fuel bounds the number of matches,
and `s.length + 1` is always enough because each match consumes at least one
character. -/
def splitGo (pat : List Char) : Nat → List Char → List (List Char)
  | 0, s => [s]
  | fuel + 1, s =>
      match breakOn pat s with
      | (a, none) => [a]
      | (a, some r) => a :: splitGo pat fuel r

/-- Python `s.split(pat)` for a nonempty pattern: the fragments of `s` between
non-overlapping leftmost occurrences of `pat`. -/
def splitOnL (pat s : List Char) : List (List Char) := splitGo pat (s.length + 1) s

/-- Fuel-driven worker for `replaceAll`. -/
def replaceGo (pat repl : List Char) : Nat → List Char → List Char
  | 0, s => s
  | fuel + 1, s =>
      match breakOn pat s with
      | (a, none) => a
      | (a, some r) => a ++ repl ++ replaceGo pat repl fuel r

/-- Python `s.replace(pat, repl)`: every non-overlapping leftmost occurrence of
`pat` replaced by `repl`; replacement text is not rescanned. -/
def replaceAll (pat repl s : List Char) : List Char := replaceGo pat repl (s.length + 1) s

/-- The field record restricted to the scalar text fields the substitution
passes read: `str(data.get(field, ""))`, values already rendered to text. -/
def getField (fields : List (String × List Char)) (name : String) : List Char :=
  match fields.find? (fun kv => kv.1 == name) with
  | some kv => kv.2
  | none => []

/-- `_PLACEHOLDERS`: placeholder literal → field name, in dict insertion order. -/
def placeholdersMap : List (List Char × String) :=
  [("Col A".data, "Date of Entry"), ("Col B".data, "Amount"),
   ("Col C".data, "Description"), ("Col D".data, "Beneficiary Name"),
   ("Col E".data, "Bank Name"), ("Col F".data, "Bank Account No"),
   ("Col G".data, "IFSC/SWIFT Code"), ("Col H".data, "IBAN No"),
   ("Col I".data, "Address")]

/-- The placeholder loop of `_replace_placeholders` on one aggregated text:
`for ph, field in _PLACEHOLDERS.items(): para_text = para_text.replace(ph, str(data.get(field, "")))`. -/
def placeholdersSubst (fields : List (String × List Char)) (s : List Char) : List Char :=
  placeholdersMap.foldl (fun acc kv => replaceAll kv.1 (getField fields kv.2) acc) s

/-- `_replace_placeholders`, one paragraph: skipped when it has no text nodes;
otherwise substitute on the aggregated text, write the result into the first
text node and blank the rest. -/
def replacePlaceholdersPara (fields : List (String × List Char)) (p : Para) : Para :=
  match p with
  | [] => []
  | x :: xs => some (placeholdersSubst fields (paraText (x :: xs))) :: xs.map (fun _ => some [])

/-- `_replace_placeholders` over every paragraph of the document. -/
def replacePlaceholdersDoc (fields : List (String × List Char)) (paras : List Para) : List Para :=
  paras.map (replacePlaceholdersPara fields)

/-- The literal marker `"Self generate"`. -/
def sgMarker : List Char := "Self generate".data

/-- `_SELF_GEN_ORDER`: ordinal position → field name, `none` keeping the literal. -/
def selfGenOrder : List (Option String) :=
  [some "Invoice Number", none, some "Total Amount", some "Total Amount in Words"]

/-- Replacement text for the `counter`-th marker occurrence (1-based):
`field = _SELF_GEN_ORDER[counter-1] if counter-1 < len(_SELF_GEN_ORDER) else None`,
then `str(data.get(field, "")) if field else "Self generate"`. -/
def selfGenReplacement (fields : List (String × List Char)) (counter : Nat) : List Char :=
  match (if counter - 1 < selfGenOrder.length then selfGenOrder.getD (counter - 1) none else none) with
  | some f => getField fields f
  | none => sgMarker

/-- The rebuild loop of `_replace_self_generate`: interleave the split parts
after the first one with replacements at occurrence numbers `c+1`, `c+2`, …;
returns the rebuilt text and the updated counter. -/
def rebuildTail (fields : List (String × List Char)) (c : Nat) :
    List (List Char) → List Char × Nat
  | [] => ([], c)
  | s :: rest =>
      let (t, c') := rebuildTail fields (c + 1) rest
      (selfGenReplacement fields (c + 1) ++ s ++ t, c')

/-- `_replace_self_generate`, one paragraph, threading the document-wide
counter: paragraphs without text nodes or without the marker are untouched;
otherwise the rebuilt text goes into the first node and the rest are blanked. -/
def selfGenPara (fields : List (String × List Char)) (c : Nat) (p : Para) : Para × Nat :=
  match p with
  | [] => ([], c)
  | x :: xs =>
      match splitOnL sgMarker (paraText (x :: xs)) with
      | p0 :: p1 :: rest =>
          let (t, c') := rebuildTail fields c (p1 :: rest)
          (some (p0 ++ t) :: xs.map (fun _ => some []), c')
      | _ => (x :: xs, c)

/-- `_replace_self_generate` over the whole document, counter initialised by
the caller (the code starts it at 0 for each document). -/
def selfGenParas (fields : List (String × List Char)) (c : Nat) :
    List Para → List Para × Nat
  | [] => ([], c)
  | p :: ps =>
      let (p', c') := selfGenPara fields c p
      let (ps', c'') := selfGenParas fields c' ps
      (p' :: ps', c'')

/-- Number of marker occurrences in a text. -/
def occCount (s : List Char) : Nat := (splitOnL sgMarker s).tail.length

/-- Total number of marker occurrences over a document's paragraph texts. -/
def totalOcc (paras : List Para) : Nat := (paras.map (fun p => occCount (paraText p))).sum

/-- Specification side of the ordinal pass: consume one replacement per
junction between split parts, in order. -/
def consumeParts (repls : List (List Char)) : List (List Char) → List Char × List (List Char)
  | [] => ([], repls)
  | s :: rest =>
      let (t, r') := consumeParts repls.tail rest
      (repls.headD sgMarker ++ s ++ t, r')

/-- Specification side of the ordinal pass on one text: replace the marker
occurrences by the replacements drawn, in order, from `repls`; return the new
text and the unused replacements. -/
def specSubstText (repls : List (List Char)) (s : List Char) : List Char × List (List Char) :=
  match splitOnL sgMarker s with
  | [] => (s, repls)
  | p0 :: rest =>
      let (t, r') := consumeParts repls rest
      (p0 ++ t, r')

/-- Specification side of the ordinal pass over the texts of a document's
paragraphs, in document order, threading the replacement list. -/
def specSubstSeq (repls : List (List Char)) : List (List Char) → List (List Char)
  | [] => []
  | s :: ss =>
      let (s', r') := specSubstText repls s
      s' :: specSubstSeq r' ss

/-- A `w:r` run inside a table cell, with its direct `w:t` children. -/
structure Run where
  ts : List (Option (List Char))
deriving DecidableEq

/-- A `w:tc` table cell, with its descendant runs in document order. -/
structure Cell where
  runs : List Run
deriving DecidableEq

/-- A `w:tr` table row: its cells, plus the identifier values carried by its
descendant `w:bookmarkStart`, `w:bookmarkEnd`, `wp:docPr` and `wp14:anchor`
nodes, each list in document order (anchor values are stored as zero-padded
hexadecimal text in the XML; they are modelled numerically). -/
structure Row where
  cells : List Cell
  bmStarts : List Int
  bmEnds : List Int
  docPrs : List Int
  anchors : List Int
deriving DecidableEq

/-- A `w:tbl` table: its top-level `w:tr` rows. -/
structure Tbl where
  rows : List Row
deriving DecidableEq

/-- `_set_first_run_text`: no run in the cell → unchanged; first run without a
`w:t` child → a fresh `w:t` is appended to that run; otherwise the first `w:t`
of the first run gets the new text. -/
def setFirstRunText (tc : Cell) (s : List Char) : Cell :=
  match tc.runs with
  | [] => tc
  | r :: rs =>
      match r.ts with
      | [] => ⟨⟨[some s]⟩ :: rs⟩
      | _ :: ts => ⟨⟨some s :: ts⟩ :: rs⟩

/-- Positional access `tcs[i]` followed by `_set_first_run_text(tcs[i], s)`:
an out-of-range index raises Python's `IndexError`, modelled as `.error i`. -/
def setCellAt (cells : List Cell) (i : Nat) (s : List Char) : Except Nat (List Cell) :=
  match cells[i]? with
  | some c => .ok (cells.set i (setFirstRunText c s))
  | none => .error i

/-- The three cell overwrites of the clone loop of `_populate_invoice_table`:
ordinal into cell 0, description into cell 1, amount into cell 4. -/
def fillRowCells (cells : List Cell) (i d a : List Char) : Except Nat (List Cell) :=
  match setCellAt cells 0 i with
  | .error j => .error j
  | .ok c0 =>
      match setCellAt c0 1 d with
      | .error j => .error j
      | .ok c1 => setCellAt c1 4 a

/-- Assign consecutive counter values to an id list: each identifier node gets
`next(self._id_counter)`; returns the new values and the advanced counter. -/
def assignSeq (c : Int) : List Int → List Int × Int
  | [] => ([], c)
  | _ :: rest =>
      let (l, c') := assignSeq (c + 1) rest
      (c :: l, c')

/-- `_fix_unique_ids`: rewrite every identifier-bearing node of the row with
fresh values from the single shared counter, iterating the bookmarkStart
nodes, then bookmarkEnd, then docPr, then anchor. -/
def fixUniqueIds (c : Int) (r : Row) : Row × Int :=
  let (s1, c1) := assignSeq c r.bmStarts
  let (s2, c2) := assignSeq c1 r.bmEnds
  let (s3, c3) := assignSeq c2 r.docPrs
  let (s4, c4) := assignSeq c3 r.anchors
  ({ r with bmStarts := s1, bmEnds := s2, docPrs := s3, anchors := s4 }, c4)

/-- All identifier values of a row, in the order `_fix_unique_ids` visits them. -/
def rowIds (r : Row) : List Int := r.bmStarts ++ r.bmEnds ++ r.docPrs ++ r.anchors

/-- Seed of the shared id counter: `max(used_ids) + 1 if used_ids else 1`. -/
def idStart (used : List Int) : Int :=
  match used with
  | [] => 1
  | x :: xs => xs.foldl max x + 1

/-- The consecutive values `s, s+1, …, s+n-1` drawn from the id counter. -/
def intRange (s : Int) : Nat → List Int
  | 0 => []
  | n + 1 => s :: intRange (s + 1) n

/-- Python `str(idx)` for the 1-based ordinal written into cell 0. -/
def natChars (n : Nat) : List Char := (Nat.repr n).data

/-- The clone loop of `_populate_invoice_table`: for each (description, amount)
pair, deep-copy the template row, renumber its ids from the shared counter,
then overwrite cells 0, 1 and 4; `i` is the 1-based ordinal. -/
def buildClones (tpl : Row) (c : Int) (i : Nat) :
    List (List Char × List Char) → Except Nat (List Row × Int)
  | [] => .ok ([], c)
  | (d, a) :: rest =>
      let (r1, c1) := fixUniqueIds c tpl
      match fillRowCells r1.cells (natChars i) d a with
      | .error j => .error j
      | .ok cells' =>
          match buildClones tpl c1 (i + 1) rest with
          | .error j => .error j
          | .ok (rs, c2) => .ok ({ r1 with cells := cells' } :: rs, c2)

/-- The row-rewriting part of `_populate_invoice_table`, given the located
table and the ids on nodes outside it.  Tables with fewer than two rows are a
no-op.  The data rows `rows[1:]` are detached first; only then are the used
ids collected (from the remaining document: `otherIds` plus the header row),
the counter is seeded, the clones are appended, and rows beyond index
`len(descriptions) + 1` of the original row list are re-appended. -/
def populateTbl (otherIds : List Int) (descs amts : List (List Char)) (tbl : Tbl) :
    Except Nat Tbl :=
  match tbl.rows with
  | r0 :: tplRow :: rest =>
      let used := otherIds ++ rowIds r0
      let start := idStart used
      match buildClones tplRow start 1 (descs.zip amts) with
      | .error j => .error j
      | .ok (clones, _) =>
          let footer := if (r0 :: tplRow :: rest).length > descs.length + 1
                        then (r0 :: tplRow :: rest).drop (descs.length + 1)
                        else []
          .ok ⟨r0 :: (clones ++ footer)⟩
  | _ => .ok tbl

/-- A Python value that is either a scalar string or a list of strings, the
two shapes `data.get("Description"/"Amount", [])` can take here. -/
inductive PyVal where
  | scalar (s : List Char)
  | listv (l : List (List Char))
deriving DecidableEq

/-- The list coercion of `_populate_invoice_table`:
`xs if isinstance(xs, list) else [xs]`. -/
def pyToList : PyVal → List (List Char)
  | .scalar s => [s]
  | .listv l => l

/-- `_populate_invoice_table` after table location: no table → no-op; coerced
`Description`/`Amount` lists of different lengths → warning (the `Bool` of the
result) and the table untouched; otherwise fill.  The missing-key default of
`data.get(..., [])` is already applied in the `PyVal` arguments. -/
def populateInvoiceTable (descVal amtVal : PyVal) (otherIds : List Int)
    (tblOpt : Option Tbl) : Except Nat (Option Tbl × Bool) :=
  match tblOpt with
  | none => .ok (none, false)
  | some tbl =>
      let descs := pyToList descVal
      let amts := pyToList amtVal
      if descs.length = amts.length then
        match populateTbl otherIds descs amts tbl with
        | .error j => .error j
        | .ok t => .ok (some t, false)
      else
        .ok (some tbl, true)

/-- One field record of `data_list`: the scalar text fields, and the raw
`Description` and `Amount` values. -/
structure Payload where
  fields : List (String × List Char)
  descVal : PyVal
  amtVal : PyVal

/-- The document body state the three passes touch: its paragraphs, the
invoice table located by header signature (`none` when absent), and the
identifier values on nodes outside that table (the code pools the bookmark,
docPr and anchor domains into one set when collecting). -/
structure XDoc where
  paras : List Para
  tblOpt : Option Tbl
  otherIds : List Int
deriving DecidableEq

/-- `_transform_document_xml`: placeholder pass, then ordinal pass (counter
starting at 0), then table population; an uncaught `IndexError` from the
table step aborts the whole transform. -/
def transformDocument (p : Payload) (doc : XDoc) : Except Nat (XDoc × Bool) :=
  let paras1 := replacePlaceholdersDoc p.fields doc.paras
  let paras2 := (selfGenParas p.fields 0 paras1).1
  match populateInvoiceTable p.descVal p.amtVal doc.otherIds doc.tblOpt with
  | .error j => .error j
  | .ok tw => .ok ({ doc with paras := paras2, tblOpt := tw.1 }, tw.2)

/-- One archive entry: its name, its `ZipInfo` metadata (dates, compression
settings, attributes — carried verbatim by `zout.writestr(item, _)`), and its
bytes. -/
structure ZEntry where
  name : String
  meta : Nat
  data : List Nat
deriving DecidableEq

/-- The designated body entry name. -/
def docEntryName : String := "word/document.xml"

/-- `_patch_docx`: stream every entry of the source archive into the output,
rewriting the bytes of the body entry with `transform` and copying every other
entry (bytes and metadata) verbatim, in the source order. -/
def patchDocx (transform : List Nat → List Nat) (entries : List ZEntry) : List ZEntry :=
  entries.map (fun e => if e.name = docEntryName then { e with data := transform e.data } else e)

/-- Specification side of the id claim: a per-domain counter seed,
`max(used-in-that-domain) + 1`, or 1 when that domain has no values. -/
def specDomainSeed : List Int → Int
  | [] => 1
  | x :: xs => xs.foldl max x + 1

/-- A header row with no cells and no identifier-bearing nodes. -/
def plainHeaderRow : Row := ⟨[], [], [], [], []⟩

/-- Template data row for the footer scenario: five cells without runs, no ids. -/
def tplC1 : Row := ⟨List.replicate 5 ⟨[]⟩, [], [], [], []⟩

/-- A trailing totals/footer row, marked by a docPr id so it is distinguishable. -/
def ftrC1 : Row := ⟨[], [], [], [9], []⟩

/-- Template data row carrying one bookmark pair with ids 0 and 3. -/
def tplC8 : Row := ⟨List.replicate 5 ⟨[]⟩, [0], [3], [], []⟩

/-- A header row carrying a bookmark id 5 and a drawing docPr id 100. -/
def hdrC2 : Row := ⟨[], [5], [], [100], []⟩

/-- Template data row carrying one bookmark pair with ids 0 and 0. -/
def tplC2 : Row := ⟨List.replicate 5 ⟨[]⟩, [0], [0], [], []⟩

/-- A probe transform whose effect (a prepended byte) is visible whenever it
is invoked on any entry. -/
def tfProbe : List Nat → List Nat := fun b => 9 :: b

/-- A one-entry archive that does not contain the body entry. -/
def archNoBody : List ZEntry := [⟨"word/styles.xml", 7, [1, 2, 3]⟩]

theorem paraText_cons (t : Option (List Char)) (xs : Para) :
    paraText (t :: xs) = nodeText t ++ paraText xs := rfl

theorem paraText_blanks {β : Type} (xs : List β) :
    paraText (xs.map (fun _ => some [])) = [] := by
  induction xs with
  | nil => rfl
  | cons x xs ih => simpa [paraText_cons, nodeText] using ih

theorem paraText_first (t : List Char) {β : Type} (xs : List β) :
    paraText (some t :: xs.map (fun _ => some [])) = t := by
  rw [paraText_cons, paraText_blanks]
  simp [nodeText]

theorem breakOn_eq_none (pat : List Char) :
    ∀ s a, breakOn pat s = (a, none) → a = s := by
  intro s
  induction s with
  | nil =>
      intro a h
      simp [breakOn] at h
      exact h
  | cons c cs ih =>
      intro a h
      by_cases hp : pat ≠ [] ∧ pat.isPrefixOf (c :: cs)
      · simp [breakOn, hp] at h
      · rcases h2 : breakOn pat cs with ⟨a', r'⟩
        rw [breakOn, if_neg hp, h2] at h
        simp at h
        rcases h with ⟨ha, hr⟩
        rw [← ha, ih a' (by rw [h2, hr])]

theorem splitGo_ne_nil (pat : List Char) (fuel : Nat) (s : List Char) :
    splitGo pat fuel s ≠ [] := by
  cases fuel with
  | zero => simp [splitGo]
  | succ n =>
      rcases hb : breakOn pat s with ⟨a, r⟩
      cases r <;> simp [splitGo, hb]

theorem splitOnL_ne_nil (pat s : List Char) : splitOnL pat s ≠ [] :=
  splitGo_ne_nil pat (s.length + 1) s

theorem splitGo_single (pat : List Char) :
    ∀ fuel s x, splitGo pat fuel s = [x] → x = s := by
  intro fuel
  induction fuel with
  | zero =>
      intro s x h
      simp [splitGo] at h
      exact h.symm
  | succ n ih =>
      intro s x h
      rcases hb : breakOn pat s with ⟨a, r⟩
      cases r with
      | none =>
          rw [splitGo, hb] at h
          simp at h
          rw [← h, breakOn_eq_none pat s a hb]
      | some rem =>
          rw [splitGo, hb] at h
          simp at h
          exact absurd h.2 (splitGo_ne_nil pat n rem)

theorem splitOnL_single (pat s x : List Char) : splitOnL pat s = [x] → x = s :=
  splitGo_single pat (s.length + 1) s x

theorem rebuildTail_snd (fields : List (String × List Char)) :
    ∀ (parts : List (List Char)) (c : Nat),
      (rebuildTail fields c parts).2 = c + parts.length := by
  intro parts
  induction parts with
  | nil => intro c; simp [rebuildTail]
  | cons s rest ih =>
      intro c
      simp [rebuildTail, ih (c + 1)]
      omega

theorem consumeParts_rebuild (fields : List (String × List Char)) :
    ∀ (parts rest : List (List Char)) (c : Nat),
      consumeParts ((List.range' (c + 1) parts.length).map (selfGenReplacement fields) ++ rest) parts
        = ((rebuildTail fields c parts).1, rest) := by
  intro parts
  induction parts with
  | nil => intro rest c; simp [consumeParts, rebuildTail]
  | cons s ps ih =>
      intro rest c
      simp only [List.length_cons, List.range'_succ, List.map_cons, List.cons_append,
        consumeParts, rebuildTail, List.headD_cons, List.tail_cons, ih rest (c + 1)]

theorem selfGenPara_spec (fields : List (String × List Char)) (c : Nat) (p : Para)
    (rest : List (List Char)) :
    paraText (selfGenPara fields c p).1
        = (specSubstText ((List.range' (c + 1) (occCount (paraText p))).map
            (selfGenReplacement fields) ++ rest) (paraText p)).1
      ∧ (selfGenPara fields c p).2 = c + occCount (paraText p)
      ∧ (specSubstText ((List.range' (c + 1) (occCount (paraText p))).map
            (selfGenReplacement fields) ++ rest) (paraText p)).2 = rest := by
  cases p with
  | nil =>
      refine ⟨?_, ?_, ?_⟩ <;>
        simp [selfGenPara, specSubstText, occCount, paraText, splitOnL, splitGo,
          breakOn, consumeParts]
  | cons x xs =>
      rcases hs : splitOnL sgMarker (paraText (x :: xs)) with _ | ⟨p0, ps⟩
      · exact absurd hs (splitOnL_ne_nil _ _)
      · have hOcc : occCount (paraText (x :: xs)) = ps.length := by
          simp [occCount, hs]
        cases ps with
        | nil =>
            have hx : p0 = paraText (x :: xs) := splitOnL_single _ _ _ hs
            refine ⟨?_, ?_, ?_⟩ <;>
              simp [selfGenPara, specSubstText, hs, hOcc, consumeParts, hx]
        | cons p1 ps2 =>
            have hsel : selfGenPara fields c (x :: xs)
                = (some (p0 ++ (rebuildTail fields c (p1 :: ps2)).1)
                    :: xs.map (fun _ => some []), (rebuildTail fields c (p1 :: ps2)).2) := by
              simp only [selfGenPara, hs]
            have hsubst : specSubstText
                ((List.range' (c + 1) ((p1 :: ps2).length)).map (selfGenReplacement fields)
                  ++ rest) (paraText (x :: xs))
                = (p0 ++ (rebuildTail fields c (p1 :: ps2)).1, rest) := by
              simp only [specSubstText, hs, consumeParts_rebuild fields (p1 :: ps2) rest c]
            refine ⟨?_, ?_, ?_⟩
            · rw [hOcc, hsel, hsubst]
              exact paraText_first _ xs
            · rw [hOcc, hsel]
              exact rebuildTail_snd fields (p1 :: ps2) c
            · rw [hOcc, hsubst]

theorem selfGenParas_spec (fields : List (String × List Char)) :
    ∀ (paras : List Para) (c : Nat) (rest : List (List Char)),
      ((selfGenParas fields c paras).1.map paraText
          = specSubstSeq ((List.range' (c + 1) (totalOcc paras)).map
              (selfGenReplacement fields) ++ rest) (paras.map paraText))
        ∧ (selfGenParas fields c paras).2 = c + totalOcc paras := by
  intro paras
  induction paras with
  | nil => intro c rest; simp [selfGenParas, totalOcc, specSubstSeq]
  | cons p ps ih =>
      intro c rest
      have hT : totalOcc (p :: ps) = occCount (paraText p) + totalOcc ps := by
        simp [totalOcc]
      have hsplit : List.range' (c + 1) (occCount (paraText p) + totalOcc ps)
          = List.range' (c + 1) (occCount (paraText p))
              ++ List.range' (c + 1 + occCount (paraText p)) (totalOcc ps) := by
        have h := List.range'_append (c + 1) (occCount (paraText p)) (totalOcc ps) 1
        simp only [one_mul] at h
        rw [Nat.add_comm (occCount (paraText p)) (totalOcc ps), ← h]
      obtain ⟨hp1, hp2, hp3⟩ := selfGenPara_spec fields c p
        ((List.range' (c + 1 + occCount (paraText p)) (totalOcc ps)).map
          (selfGenReplacement fields) ++ rest)
      obtain ⟨hq1, hq2⟩ := ih (c + occCount (paraText p)) rest
      have hL : (selfGenParas fields c (p :: ps)).1
          = (selfGenPara fields c p).1
              :: (selfGenParas fields (selfGenPara fields c p).2 ps).1 := rfl
      have hL2 : (selfGenParas fields c (p :: ps)).2
          = (selfGenParas fields (selfGenPara fields c p).2 ps).2 := rfl
      have hspec : ∀ (repls : List (List Char)) (s : List Char) (ss : List (List Char)),
          specSubstSeq repls (s :: ss)
            = (specSubstText repls s).1 :: specSubstSeq (specSubstText repls s).2 ss :=
        fun _ _ _ => rfl
      refine ⟨?_, ?_⟩
      · rw [hL, List.map_cons, List.map_cons, hspec, hT, hsplit, List.map_append,
          List.append_assoc, hp2, hp3, hp1, Nat.add_right_comm c 1 (occCount (paraText p)),
          hq1]
      · rw [hL2, hp2, hq2, hT]
        omega

theorem assignSeq_spec : ∀ (l : List Int) (c : Int),
    assignSeq c l = (intRange c l.length, c + l.length) := by
  intro l
  induction l with
  | nil => intro c; simp [assignSeq, intRange]
  | cons x xs ih =>
      intro c
      rw [assignSeq, ih (c + 1)]
      simp only [intRange, List.length_cons, Prod.mk.injEq, true_and]
      push_cast
      ring

theorem intRange_append : ∀ (m : Nat) (c : Int) (n : Nat),
    intRange c m ++ intRange (c + m) n = intRange c (m + n) := by
  intro m
  induction m with
  | zero => intro c n; simp [intRange]
  | succ m ih =>
      intro c n
      have h1 : c + ((m : Int) + 1) = (c + 1) + m := by ring
      simp only [intRange, List.cons_append]
      push_cast
      rw [h1, ih (c + 1) n, show m + 1 + n = (m + n) + 1 from by omega]
      rfl

theorem intRange_length : ∀ (m : Nat) (c : Int), (intRange c m).length = m := by
  intro m
  induction m with
  | zero => intro c; rfl
  | succ m ih => intro c; simp [intRange, ih (c + 1)]

theorem fixUniqueIds_spec (c : Int) (r : Row) :
    rowIds (fixUniqueIds c r).1 = intRange c (rowIds r).length
      ∧ (fixUniqueIds c r).2 = c + (rowIds r).length
      ∧ (fixUniqueIds c r).1.cells = r.cells := by
  have hlen : (rowIds r).length
      = r.bmStarts.length + r.bmEnds.length + r.docPrs.length + r.anchors.length := by
    simp [rowIds]
    ring
  have e1 := assignSeq_spec r.bmStarts c
  have e2 := assignSeq_spec r.bmEnds (c + r.bmStarts.length)
  have e3 := assignSeq_spec r.docPrs (c + r.bmStarts.length + r.bmEnds.length)
  have e4 := assignSeq_spec r.anchors (c + r.bmStarts.length + r.bmEnds.length + r.docPrs.length)
  refine ⟨?_, ?_, ?_⟩
  · show rowIds ({ r with
        bmStarts := (assignSeq c r.bmStarts).1,
        bmEnds := (assignSeq (assignSeq c r.bmStarts).2 r.bmEnds).1,
        docPrs := (assignSeq (assignSeq (assignSeq c r.bmStarts).2 r.bmEnds).2 r.docPrs).1,
        anchors := (assignSeq (assignSeq (assignSeq (assignSeq c r.bmStarts).2 r.bmEnds).2
          r.docPrs).2 r.anchors).1 } : Row) = _
    rw [rowIds]
    simp only [e1, e2, e3, e4]
    rw [hlen]
    rw [show c + (r.bmStarts.length : Int) + r.bmEnds.length + r.docPrs.length
        = c + ((r.bmStarts.length + r.bmEnds.length : Nat) + r.docPrs.length : Nat) from by
      push_cast; ring]
    rw [intRange_append]
    rw [show c + (r.bmStarts.length : Int) + r.bmEnds.length
        = c + ((r.bmStarts.length + r.bmEnds.length : Nat) : Int) from by push_cast; ring]
    rw [intRange_append]
    rw [intRange_append]
  · show (assignSeq (assignSeq (assignSeq (assignSeq c r.bmStarts).2 r.bmEnds).2
        r.docPrs).2 r.anchors).2 = _
    simp only [e1, e2, e3, e4]
    rw [hlen]
    push_cast
    ring
  · rfl

theorem setCellAt_lt (cells : List Cell) (i : Nat) (s : List Char) (h : i < cells.length) :
    ∃ cs, setCellAt cells i s = .ok cs ∧ cs.length = cells.length := by
  refine ⟨cells.set i (setFirstRunText cells[i] s), ?_, by simp⟩
  rw [setCellAt, List.getElem?_eq_getElem h]

theorem setCellAt_ge (cells : List Cell) (i : Nat) (s : List Char) (h : cells.length ≤ i) :
    setCellAt cells i s = .error i := by
  rw [setCellAt, List.getElem?_eq_none h]

theorem fillRowCells_ok (cells : List Cell) (i d a : List Char) (h : 5 ≤ cells.length) :
    ∃ cs, fillRowCells cells i d a = .ok cs := by
  obtain ⟨c0, h0, l0⟩ := setCellAt_lt cells 0 i (by omega)
  obtain ⟨c1, h1, l1⟩ := setCellAt_lt c0 1 d (by omega)
  obtain ⟨c2, h2, l2⟩ := setCellAt_lt c1 4 a (by omega)
  exact ⟨c2, by simp only [fillRowCells, h0, h1, h2]⟩

theorem fillRowCells_err (cells : List Cell) (i d a : List Char) (h : cells.length < 5) :
    ∃ j, fillRowCells cells i d a = .error j ∧ (2 ≤ cells.length → j = 4) := by
  rcases Nat.lt_or_ge cells.length 1 with h1 | h1
  · refine ⟨0, ?_, by omega⟩
    simp only [fillRowCells, setCellAt_ge cells 0 i (by omega)]
  · rcases Nat.lt_or_ge cells.length 2 with h2 | h2
    · obtain ⟨c0, h0, l0⟩ := setCellAt_lt cells 0 i (by omega)
      refine ⟨1, ?_, by omega⟩
      simp only [fillRowCells, h0, setCellAt_ge c0 1 d (by omega)]
    · obtain ⟨c0, h0, l0⟩ := setCellAt_lt cells 0 i (by omega)
      obtain ⟨c1, h1', l1⟩ := setCellAt_lt c0 1 d (by omega)
      refine ⟨4, ?_, fun _ => rfl⟩
      simp only [fillRowCells, h0, h1', setCellAt_ge c1 4 a (by omega)]

theorem buildClones_ok (tpl : Row) (h : 5 ≤ tpl.cells.length) :
    ∀ (pairs : List (List Char × List Char)) (c : Int) (i : Nat),
      ∃ clones, buildClones tpl c i pairs
          = .ok (clones, c + pairs.length * (rowIds tpl).length)
        ∧ (clones.map rowIds).flatten = intRange c (pairs.length * (rowIds tpl).length) := by
  intro pairs
  induction pairs with
  | nil =>
      intro c i
      refine ⟨[], ?_, by simp [intRange]⟩
      rw [buildClones]
      simp
  | cons pr rest ih =>
      intro c i
      obtain ⟨d, a⟩ := pr
      rcases hfix : fixUniqueIds c tpl with ⟨r1, c1⟩
      obtain ⟨hIds, hC, hCells⟩ := fixUniqueIds_spec c tpl
      rw [hfix] at hIds hC hCells
      simp only at hIds hC hCells
      obtain ⟨cells', hfill⟩ := fillRowCells_ok r1.cells (natChars i) d a (by rw [hCells]; exact h)
      obtain ⟨clones, hbc, hids⟩ := ih c1 (i + 1)
      rw [hC] at hids
      refine ⟨{ r1 with cells := cells' } :: clones, ?_, ?_⟩
      · simp only [buildClones, hfix, hfill, hbc, List.length_cons, Except.ok.injEq,
          Prod.mk.injEq, true_and]
        rw [hC]
        push_cast
        ring
      · simp only [List.map_cons, List.flatten_cons, List.length_cons]
        have hr1 : rowIds { r1 with cells := cells' } = rowIds r1 := rfl
        rw [hr1, hIds, hids, intRange_append]
        congr 1
        ring

/-- Claim C4: for every paragraph whose text leaves are nonempty (in particular any
paragraph containing a placeholder, however the placeholder is split across
leaves), the placeholder pass substitutes exactly as if the paragraph were the
single aggregated string, writes the full result into the first leaf and sets
every subsequent leaf to the empty string; and any other leaf-splitting of the
same aggregated text receives the same first-leaf content. -/
theorem c4_placeholders_split_runs (fields : List (String × List Char)) (p : Para)
    (h : p ≠ []) :
    replacePlaceholdersPara fields p
        = some (placeholdersSubst fields (paraText p)) :: (p.drop 1).map (fun _ => some [])
      ∧ paraText (replacePlaceholdersPara fields p) = placeholdersSubst fields (paraText p)
      ∧ ∀ q : Para, q ≠ [] → paraText q = paraText p →
          (replacePlaceholdersPara fields q).head?
            = some (some (placeholdersSubst fields (paraText p))) := by
  cases p with
  | nil => exact absurd rfl h
  | cons x xs =>
      refine ⟨rfl, paraText_first _ xs, ?_⟩
      intro q hq hpq
      cases q with
      | nil => exact absurd rfl hq
      | cons y ys => simp [replacePlaceholdersPara, hpq]

/-- Witness for C4 at a concrete paragraph in which the placeholders `Col I`
and `Col A` are split across four text leaves, one of them a `None` text. -/
theorem c4_witness :
    replacePlaceholdersPara
        [("Address", "Pune".data), ("Date of Entry", "Jan 5".data)]
        [some "Col ".data, none, some "I, Col".data, some " A!".data]
      = some (placeholdersSubst
          [("Address", "Pune".data), ("Date of Entry", "Jan 5".data)]
          (paraText [some "Col ".data, none, some "I, Col".data, some " A!".data]))
          :: (([some "Col ".data, none, some "I, Col".data, some " A!".data] : Para).drop 1).map
              (fun _ => some [])
      ∧ (replacePlaceholdersPara
          [("Address", "Pune".data), ("Date of Entry", "Jan 5".data)]
          [some (paraText [some "Col ".data, none, some "I, Col".data, some " A!".data])]).head?
          = some (some (placeholdersSubst
              [("Address", "Pune".data), ("Date of Entry", "Jan 5".data)]
              (paraText [some "Col ".data, none, some "I, Col".data, some " A!".data]))) :=
  ⟨(c4_placeholders_split_runs
      [("Address", "Pune".data), ("Date of Entry", "Jan 5".data)]
      [some "Col ".data, none, some "I, Col".data, some " A!".data] (by decide)).1,
   (c4_placeholders_split_runs
      [("Address", "Pune".data), ("Date of Entry", "Jan 5".data)]
      [some "Col ".data, none, some "I, Col".data, some " A!".data] (by decide)).2.2
      [some (paraText [some "Col ".data, none, some "I, Col".data, some " A!".data])]
      (by decide) (by decide)⟩

/-- Claim C3: in a document where the marker occurs exactly five times, the ordinal
pass (with its counter starting at 0 for this transformation) maps paragraph
texts, in document order and independent of how occurrences are distributed,
to the sequential substitution by: Invoice Number, the literal marker, Total
Amount, Total Amount in Words, and the literal marker again (the fifth
occurrence is beyond the four-entry table and stays unchanged). -/
theorem c3_ordinal_marker_substitution (fields : List (String × List Char))
    (paras : List Para) (h : totalOcc paras = 5) :
    (selfGenParas fields 0 paras).1.map paraText
      = specSubstSeq [getField fields "Invoice Number", sgMarker,
          getField fields "Total Amount", getField fields "Total Amount in Words", sgMarker]
          (paras.map paraText) := by
  have hmain := (selfGenParas_spec fields paras 0 []).1
  rw [h] at hmain
  rw [hmain]
  rfl

/-- Witness for C3: five marker occurrences spread over a split-run paragraph,
a paragraph with two adjacent occurrences, and a two-occurrence paragraph,
with the Total Amount in Words field absent from the record. -/
theorem c3_witness :
    totalOcc
        [[some "No: Self gen".data, some "erate!".data], [],
         [some "Self generateSelf generate".data], [some "plain".data],
         [some "amount Self generate and Self generate".data]] = 5
      ∧ (selfGenParas [("Invoice Number", "N42".data), ("Total Amount", "99".data)] 0
          [[some "No: Self gen".data, some "erate!".data], [],
           [some "Self generateSelf generate".data], [some "plain".data],
           [some "amount Self generate and Self generate".data]]).1.map paraText
        = specSubstSeq
            [getField [("Invoice Number", "N42".data), ("Total Amount", "99".data)] "Invoice Number",
             sgMarker,
             getField [("Invoice Number", "N42".data), ("Total Amount", "99".data)] "Total Amount",
             getField [("Invoice Number", "N42".data), ("Total Amount", "99".data)] "Total Amount in Words",
             sgMarker]
            (([[some "No: Self gen".data, some "erate!".data], [],
               [some "Self generateSelf generate".data], [some "plain".data],
               [some "amount Self generate and Self generate".data]] : List Para).map paraText) :=
  ⟨by decide,
   c3_ordinal_marker_substitution [("Invoice Number", "N42".data), ("Total Amount", "99".data)]
     [[some "No: Self gen".data, some "erate!".data], [],
      [some "Self generateSelf generate".data], [some "plain".data],
      [some "amount Self generate and Self generate".data]] (by decide)⟩

/-- Claim C9: the cell overwrites of table expansion assume the five-column layout:
with fewer than five cells in the (cloned) template data row the overwrite
raises an uncaught indexing error — at the amount cell, index 4, whenever the
row has at least the two cells the earlier overwrites need — and any such
error propagates out of the whole document transform; with at least five
cells no indexing error is reachable. -/
theorem c9_five_column_indexing (cells : List Cell) (i d a : List Char) :
    (cells.length < 5 →
        (∃ j, fillRowCells cells i d a = .error j)
          ∧ (2 ≤ cells.length → fillRowCells cells i d a = .error 4))
      ∧ (5 ≤ cells.length → ∃ cs, fillRowCells cells i d a = .ok cs)
      ∧ (∀ (p : Payload) (doc : XDoc) (e : Nat),
          populateInvoiceTable p.descVal p.amtVal doc.otherIds doc.tblOpt = .error e →
            transformDocument p doc = .error e) := by
  refine ⟨?_, ?_, ?_⟩
  · intro h
    obtain ⟨j, hj, hj4⟩ := fillRowCells_err cells i d a h
    exact ⟨⟨j, hj⟩, fun h2 => by rw [hj, hj4 h2]⟩
  · intro h
    exact fillRowCells_ok cells i d a h
  · intro p doc e he
    simp only [transformDocument, he]

/-- Witness for C9: a two-cell data row errors at index 4, a five-cell row is
filled without error, and the two-cell error aborts the whole transform. -/
theorem c9_witness :
    fillRowCells [Cell.mk [], Cell.mk []] [] [] [] = .error 4
      ∧ (∃ cs, fillRowCells (List.replicate 5 (Cell.mk [])) [] [] [] = .ok cs)
      ∧ transformDocument ⟨[], .listv [[]], .listv [[]]⟩
          ⟨[], some ⟨[plainHeaderRow, ⟨[Cell.mk [], Cell.mk []], [], [], [], []⟩]⟩, []⟩
          = .error 4 :=
  ⟨((c9_five_column_indexing [Cell.mk [], Cell.mk []] [] [] []).1 (by decide)).2 (by decide),
   (c9_five_column_indexing (List.replicate 5 (Cell.mk [])) [] [] []).2.1 (by decide),
   (c9_five_column_indexing [Cell.mk [], Cell.mk []] [] [] []).2.2
     ⟨[], .listv [[]], .listv [[]]⟩
     ⟨[], some ⟨[plainHeaderRow, ⟨[Cell.mk [], Cell.mk []], [], [], [], []⟩]⟩, []⟩ 4 rfl⟩

/-- Claim C10: overwriting a cell's first-run text is total over cell shapes: a cell
with no run is returned entirely unchanged, a first run without a text node
gets a fresh text node holding the new value, and otherwise the first text
node of the first run is overwritten (later text nodes kept). -/
theorem c10_set_first_run_total (s : List Char) (tc : Cell) :
    (tc.runs = [] → setFirstRunText tc s = tc)
      ∧ (∀ r rs, tc.runs = r :: rs → r.ts = [] →
          setFirstRunText tc s = ⟨⟨[some s]⟩ :: rs⟩)
      ∧ (∀ r rs t0 ts, tc.runs = r :: rs → r.ts = t0 :: ts →
          setFirstRunText tc s = ⟨⟨some s :: ts⟩ :: rs⟩) := by
  obtain ⟨runs⟩ := tc
  refine ⟨?_, ?_, ?_⟩
  · intro h
    simp only at h
    subst h
    rfl
  · intro r rs h hts
    simp only at h
    subst h
    obtain ⟨rts⟩ := r
    simp only at hts
    subst hts
    rfl
  · intro r rs t0 ts h hts
    simp only at h
    subst h
    obtain ⟨rts⟩ := r
    simp only at hts
    subst hts
    rfl

/-- Witness for C10 at the three concrete cell shapes. -/
theorem c10_witness :
    setFirstRunText ⟨[]⟩ "X".data = (⟨[]⟩ : Cell)
      ∧ setFirstRunText ⟨[⟨[]⟩, ⟨[some "keep".data]⟩]⟩ "X".data
          = ⟨⟨[some "X".data]⟩ :: [⟨[some "keep".data]⟩]⟩
      ∧ setFirstRunText ⟨[⟨[some "old".data, some "tail".data]⟩]⟩ "X".data
          = ⟨⟨some "X".data :: [some "tail".data]⟩ :: []⟩ :=
  ⟨(c10_set_first_run_total "X".data ⟨[]⟩).1 rfl,
   (c10_set_first_run_total "X".data ⟨[⟨[]⟩, ⟨[some "keep".data]⟩]⟩).2.1
     ⟨[]⟩ [⟨[some "keep".data]⟩] rfl rfl,
   (c10_set_first_run_total "X".data ⟨[⟨[some "old".data, some "tail".data]⟩]⟩).2.2
     ⟨[some "old".data, some "tail".data]⟩ [] (some "old".data) [some "tail".data] rfl rfl⟩

/-- Claim C6: a Description/Amount length mismatch (after the scalar-to-list
coercion) skips only the table fill, raising the warning, while the document
transform still succeeds with both text passes applied and the located table
unchanged. -/
theorem c6_mismatch_skips_table_only (p : Payload) (doc : XDoc) (tbl : Tbl)
    (htbl : doc.tblOpt = some tbl)
    (hmis : (pyToList p.descVal).length ≠ (pyToList p.amtVal).length) :
    transformDocument p doc
      = .ok ({ doc with
          paras := (selfGenParas p.fields 0 (replacePlaceholdersDoc p.fields doc.paras)).1,
          tblOpt := some tbl }, true) := by
  have hif : ((pyToList p.descVal).length = (pyToList p.amtVal).length) = False :=
    eq_false hmis
  simp only [transformDocument, populateInvoiceTable, htbl, hif, if_false]

/-- Witness for C6: two descriptions against one amount, a document with a
located one-row table, a marker paragraph and an id outside the table. -/
theorem c6_witness :
    transformDocument ⟨[], .listv [[], []], .listv [[]]⟩
        ⟨[[some "Self generate".data]], some ⟨[plainHeaderRow]⟩, [3]⟩
      = .ok (XDoc.mk
          ((selfGenParas [] 0 (replacePlaceholdersDoc [] [[some "Self generate".data]])).1)
          (some ⟨[plainHeaderRow]⟩) [3], true) :=
  c6_mismatch_skips_table_only ⟨[], .listv [[], []], .listv [[]]⟩
    ⟨[[some "Self generate".data]], some ⟨[plainHeaderRow]⟩, [3]⟩ ⟨[plainHeaderRow]⟩
    rfl (by decide)

/-- Claim C7: the archive rewrite preserves entry count, order, names and metadata,
and every entry other than the body entry is copied verbatim, bytes included;
only the body entry's bytes are transformed. -/
theorem c7_nonbody_entries_verbatim (tf : List Nat → List Nat) (entries : List ZEntry) :
    (patchDocx tf entries).length = entries.length
      ∧ ∀ (i : Nat) (e : ZEntry), entries[i]? = some e →
          ∃ e2, (patchDocx tf entries)[i]? = some e2 ∧ e2.name = e.name ∧ e2.meta = e.meta
            ∧ (e.name ≠ docEntryName → e2 = e) := by
  constructor
  · simp [patchDocx]
  · intro i e he
    refine ⟨if e.name = docEntryName then { e with data := tf e.data } else e, ?_, ?_, ?_, ?_⟩
    · rw [patchDocx, List.getElem?_map, he]
      rfl
    · by_cases hn : e.name = docEntryName <;> simp [hn]
    · by_cases hn : e.name = docEntryName <;> simp [hn]
    · intro hn
      simp [hn]

/-- Witness for C7 at a two-entry archive: the non-body entry at index 1 comes
through with name, metadata and bytes untouched. -/
theorem c7_witness :
    ∃ e2, (patchDocx tfProbe [⟨docEntryName, 1, [0]⟩, ⟨"word/styles.xml", 2, [5]⟩])[1]?
        = some e2
      ∧ e2.name = (⟨"word/styles.xml", 2, [5]⟩ : ZEntry).name
      ∧ e2.meta = (⟨"word/styles.xml", 2, [5]⟩ : ZEntry).meta
      ∧ ((⟨"word/styles.xml", 2, [5]⟩ : ZEntry).name ≠ docEntryName →
          e2 = ⟨"word/styles.xml", 2, [5]⟩) :=
  (c7_nonbody_entries_verbatim tfProbe [⟨docEntryName, 1, [0]⟩, ⟨"word/styles.xml", 2, [5]⟩]).2
    1 ⟨"word/styles.xml", 2, [5]⟩ rfl

/-- Claim C5 counterexample: on a concrete archive lacking the body entry, the
rewrite raises no condition at all — it silently produces an output archive
identical to the source; the probe transform leaves no trace because it is
never invoked. -/
theorem c5_counterexample : patchDocx tfProbe archNoBody = archNoBody := rfl

/-- Claim C5 amended: when the designated body entry is absent from the source
archive, no error and no EntryMissing condition arises; the transform is never
invoked — whatever it is — and the rewrite silently produces an output archive
whose entries equal the source's. -/
theorem c5_missing_entry_silent_copy (tf : List Nat → List Nat) :
    ∀ entries : List ZEntry, (∀ e, e ∈ entries → e.name ≠ docEntryName) →
      patchDocx tf entries = entries := by
  intro entries
  induction entries with
  | nil => intro _; rfl
  | cons e es ih =>
      intro h
      simp only [patchDocx, List.map_cons] at ih ⊢
      rw [if_neg (h e (List.mem_cons_self e es)),
        ih (fun x hx => h x (List.mem_cons_of_mem e hx))]

/-- Witness for C5's amended statement with another transform. -/
theorem c5_amended_witness : patchDocx (fun b => b ++ [1]) archNoBody = archNoBody :=
  c5_missing_entry_silent_copy (fun b => b ++ [1]) archNoBody (by decide)

/-- Claim C1 (code behaviour at the claimed scenario): a table of header row, one
template data row and one trailing footer row, expanded with three
description/amount pairs, yields only four rows — the header plus three
clones — and the footer row is dropped, because trailing rows are re-appended
only beyond index `len(descriptions) + 1 = 4` of the original three-row list. -/
theorem c1_footer_dropped :
    populateTbl [] [[], [], []] [[], [], []] ⟨[plainHeaderRow, tplC1, ftrC1]⟩
        = .ok ⟨[plainHeaderRow, tplC1, tplC1, tplC1]⟩
      ∧ (⟨[plainHeaderRow, tplC1, tplC1, tplC1]⟩ : Tbl).rows.length = 4
      ∧ ftrC1 ∉ (⟨[plainHeaderRow, tplC1, tplC1, tplC1]⟩ : Tbl).rows := by
  refine ⟨rfl, rfl, by decide⟩

/-- Claim C8 (code behaviour at the failing input): used ids are collected only
after the data rows are detached, so with a template row carrying one bookmark
pair with ids 0 and 3 and no other ids anywhere, the counter seeds at 1 and
the two clones receive bookmark ids 1,2,3,4 — and 3 equals a bookmark id that
was present in the document before expansion. -/
theorem c8_clone_id_collision :
    populateTbl [] [[], []] [[], []] ⟨[plainHeaderRow, tplC8]⟩
        = .ok ⟨[plainHeaderRow,
            { tplC8 with bmStarts := [1], bmEnds := [2] },
            { tplC8 with bmStarts := [3], bmEnds := [4] }]⟩
      ∧ (3 : Int) ∈ rowIds tplC8
      ∧ (3 : Int) ∈ rowIds { tplC8 with bmStarts := [3], bmEnds := [4] } := by
  refine ⟨rfl, by decide, by decide⟩

/-- Claim C2 counterexample: with document bookmark ids {5, 0, 0} and a docPr id
100, the claim's per-domain seeding predicts 6 as the first fresh bookmark id,
but the code draws from one counter seeded over the pooled domains and gives
the clone's bookmarkStart the value 101. -/
theorem c2_counterexample :
    populateTbl [] [[]] [[]] ⟨[hdrC2, tplC2]⟩
        = .ok ⟨[hdrC2, { tplC2 with bmStarts := [101], bmEnds := [102] }]⟩
      ∧ specDomainSeed (hdrC2.bmStarts ++ hdrC2.bmEnds ++ tplC2.bmStarts ++ tplC2.bmEnds) = 6
      ∧ ((101 : Int) = 6 → False) := by
  refine ⟨rfl, by decide, by decide⟩

/-- Claim C2 amended: the renumberer uses a single counter shared by all three
identifier domains, seeded at max+1 over the pooled ids still attached when
collection runs (1 when there are none); across the cloned rows, the values
assigned — bookmarkStarts, bookmarkEnds, docPrs, anchors of each clone, in
visit order — are exactly the consecutive integers from that seed. -/
theorem c2_shared_counter_consecutive (otherIds : List Int) (r0 tpl : Row)
    (rest : List Row) (descs amts : List (List Char))
    (hlen : descs.length = amts.length) (hcells : 5 ≤ tpl.cells.length) :
    ∃ clones : List Row,
      populateTbl otherIds descs amts ⟨r0 :: tpl :: rest⟩
          = .ok ⟨r0 :: (clones
              ++ (if (r0 :: tpl :: rest).length > descs.length + 1
                  then (r0 :: tpl :: rest).drop (descs.length + 1) else []))⟩
        ∧ (clones.map rowIds).flatten
            = intRange (idStart (otherIds ++ rowIds r0)) (descs.length * (rowIds tpl).length) := by
  obtain ⟨clones, hbc, hids⟩ := buildClones_ok tpl hcells (descs.zip amts)
    (idStart (otherIds ++ rowIds r0)) 1
  have hz : (descs.zip amts).length = descs.length := by
    rw [List.length_zip, hlen, min_self]
  rw [hz] at hids
  refine ⟨clones, ?_, hids⟩
  simp only [populateTbl, hbc]

/-- Witness for C2's amended statement at the pooled-domain table: the single
clone's four id lists concatenate to the consecutive ids from the shared seed. -/
theorem c2_amended_witness :
    ∃ clones : List Row,
      populateTbl [] [[]] [[]] ⟨hdrC2 :: tplC2 :: []⟩
          = .ok ⟨hdrC2 :: (clones
              ++ (if (hdrC2 :: tplC2 :: ([] : List Row)).length > ([[]] : List (List Char)).length + 1
                  then (hdrC2 :: tplC2 :: ([] : List Row)).drop (([[]] : List (List Char)).length + 1)
                  else []))⟩
        ∧ (clones.map rowIds).flatten
            = intRange (idStart ([] ++ rowIds hdrC2))
                (([[]] : List (List Char)).length * (rowIds tplC2).length) :=
  c2_shared_counter_consecutive [] hdrC2 tplC2 [] [[]] [[]] rfl (by decide)

end InvoiceGen
